import Mathlib

set_option maxRecDepth 20000

/-!
Verification development for the topngx access-log analyzer.

Shallow embedding of the three source files (`src/nginx.rs`, `src/main.rs`,
`src/processor.rs`). Strings are modelled as `String` or `List Char`;
machine integers as `Nat` with the source's explicit bounds; fallible
control flow as `Except`.
-/

/-! ## Format compiler (src/nginx.rs) -/

/-- The word characters of the variable scanner `\$([a-zA-Z0-9_]+)`
(NGINX_VARIABLE_REGEX, nginx.rs line 8): ASCII letters, digits, underscore. -/
def isWordChar (c : Char) : Bool :=
  c.isAlpha || c.isDigit || c = '_'

/-- Characters escaped by SPECIAL_CHARS_REGEX (nginx.rs lines 9-10):
`. * + ? | ( ) { } [ ]`. -/
def isSpecialChar (c : Char) : Bool :=
  c = '.' || c = '*' || c = '+' || c = '?' || c = '|' || c = '(' ||
  c = ')' || c = '\x7b' || c = '\x7d' || c = '[' || c = ']'

/-- The built-in combined log format (nginx.rs line 5). -/
def LOG_FORMAT_COMBINED : List Char :=
  ("$remote_addr - $remote_user [$time_local] \"$request\" $status $body_bytes_sent \"$http_referer\" \"$http_user_agent\"").toList

/-- Replace-all of SPECIAL_CHARS_REGEX with a backslash-escaped copy
(nginx.rs line 17): every special character becomes backslash-character. -/
def escapeSpecial : List Char → List Char
  | [] => []
  | c :: rest =>
      (if isSpecialChar c then '\\' :: c :: [] else c :: []) ++ escapeSpecial rest

/-- The replacement text for one directive: the regex crate receives
`(?P<name>.*)` for a variable named `name` (nginx.rs line 20). -/
def groupOf (name : List Char) : List Char :=
  '(' :: '?' :: 'P' :: '<' :: (name ++ ('>' :: '.' :: '*' :: ')' :: []))

/-- Left-to-right scanner for the replace-all of `\$([a-zA-Z0-9_]+)`.
The second argument is `none` outside a match attempt and `some w` when a
`$` has been seen and `w` holds the (reversed) word characters read so far.
Returns the rewritten pattern together with the captured directive names
in order of appearance, which is the order of the named groups in the
produced pattern and hence the matcher's capture-name order. -/
def subAux : List Char → Option (List Char) → List Char × List (List Char)
  | [], none => ([], [])
  | [], some w =>
      if w = [] then ('$' :: [], []) else (groupOf w.reverse, w.reverse :: [])
  | c :: rest, none =>
      if c = '$' then subAux rest (some [])
      else
        let r := subAux rest none
        (c :: r.1, r.2)
  | c :: rest, some w =>
      if isWordChar c then subAux rest (some (c :: w))
      else
        let pre : List Char × List (List Char) :=
          if w = [] then ('$' :: [], [])
          else (groupOf w.reverse, w.reverse :: [])
        let r :=
          if c = '$' then subAux rest (some [])
          else
            let r0 := subAux rest none
            (c :: r0.1, r0.2)
        (pre.1 ++ r.1, pre.2 ++ r.2)

/-- The same left-to-right scan, keeping only the directive names: the
names matched by `\$([a-zA-Z0-9_]+)`, leftmost first. -/
def dirAux : List Char → Option (List Char) → List (List Char)
  | [], none => []
  | [], some w => if w = [] then [] else w.reverse :: []
  | c :: rest, none =>
      if c = '$' then dirAux rest (some []) else dirAux rest none
  | c :: rest, some w =>
      if isWordChar c then dirAux rest (some (c :: w))
      else
        let pre := if w = [] then ([] : List (List Char)) else w.reverse :: []
        let r := if c = '$' then dirAux rest (some []) else dirAux rest none
        pre ++ r

/-- Directive names of a template, in template order. -/
def directives (l : List Char) : List (List Char) := dirAux l none

/-- A compiled matcher: the final pattern text and its named capture
groups in order of appearance (what `Regex::capture_names` yields after
dropping the unnamed whole-match group). -/
structure Matcher where
  pattern : List Char
  names : List (List Char)

/-- Embedding of `format_to_pattern` (nginx.rs lines 13-22). The source
ignores its `_format` argument and always compiles LOG_FORMAT_COMBINED:
it escapes the special characters, then replaces each `$name` with a
named capture group. All groups of the produced pattern come from this
substitution, since literal parentheses were escaped first. -/
def format_to_pattern (_fmt : List Char) : Matcher :=
  let format := LOG_FORMAT_COMBINED
  let escaped := escapeSpecial format
  let r := subAux escaped none
  Matcher.mk r.1 r.2

/-- Embedding of `available_variables` (nginx.rs lines 25-34): the named
capture groups of the compiled matcher, joined with a comma separator. -/
def available_variables (fmt : List Char) : List Char :=
  List.intercalate ((", ").toList) (format_to_pattern fmt).names

/-- C1 counterexample: for the template `$foo`, whose only directive is
`foo`, the compiled matcher's capture-group names are not the template's
directive names — they are the built-in combined format's names. -/
theorem capture_names_not_from_supplied_template :
    (format_to_pattern (("$foo").toList)).names ≠ directives (("$foo").toList) := by
  decide

/-- C1 (amended): for every format template, the matcher's capture-group
names, in order, equal the built-in combined log format's directive
names, in that format's order, with no duplicates. -/
theorem capture_names_are_combined_directives (fmt : List Char) :
    (format_to_pattern fmt).names = directives LOG_FORMAT_COMBINED ∧
    (format_to_pattern fmt).names.Nodup := by
  have h : format_to_pattern fmt = format_to_pattern [] := rfl
  rw [h]
  exact ⟨by decide, by decide⟩

/-- C2: `format_to_pattern` is a constant function of its format
argument: any two templates yield the same matcher, namely the one
compiled from the built-in combined log format. -/
theorem format_to_pattern_ignores_argument (f g : List Char) :
    format_to_pattern f = format_to_pattern g ∧
    format_to_pattern f = format_to_pattern LOG_FORMAT_COMBINED :=
  ⟨rfl, rfl⟩

/-! ## Record extraction (src/main.rs, parse_input, lines 237-277) -/

/-- Field-name constants of main.rs lines 28-30. -/
def STATUS_TYPE : String := "status_type"

/-- Field-name constant BYTES_SENT (main.rs line 29). -/
def BYTES_SENT : String := "bytes_sent"

/-- Field-name constant REQUEST_PATH (main.rs line 30). -/
def REQUEST_PATH : String := "request_path"

/-- The named captures of one matched line: `c.name(g)` returns the text
of group `g` when the group participated in the match, otherwise none. -/
def Captures : Type := String → Option String

/-- Strip one leading plus sign, as Rust's unsigned integer parsing
permits an optional leading `+`. -/
def stripPlus : List Char → List Char
  | '+' :: r => r
  | s => s

/-- Numeric value of a digit string, most significant first. -/
def digitsVal (t : List Char) : Nat :=
  t.foldl (fun a c => a * 10 + (c.toNat - 48)) 0

/-- Rust's `str::parse` for an unsigned integer type with maximum value
`bound`, with `unwrap_or(0)`: an optional `+`, then one or more ASCII
digits whose value fits the type; anything else (empty, non-digit,
out of range) yields 0. -/
def parseUInt (bound : Nat) (s : List Char) : Nat :=
  if !(stripPlus s).isEmpty && (stripPlus s).all Char.isDigit then
    if digitsVal (stripPlus s) ≤ bound then digitsVal (stripPlus s) else 0
  else 0

/-- The `parse::<u16>().unwrap_or(0)` of main.rs line 249. -/
def parseU16 (s : String) : Nat := parseUInt 65535 s.toList

/-- The `parse::<u32>().unwrap_or(0)` of main.rs line 253. -/
def parseU32 (s : String) : Nat := parseUInt 4294967295 s.toList

/-- Capture-group name used for the status code (main.rs line 248). -/
def STATUS_FIELD : String := "status"

/-- The status_type derived field (main.rs lines 248-249): the `status`
capture, empty when absent, parsed as u16 with 0 on failure, integer
divided by 100. -/
def statusTypeOf (c : Captures) : Nat :=
  parseU16 ((c STATUS_FIELD).getD ("")) / 100

/-- The request_path derived field (main.rs lines 255-264): the
`request_uri` capture verbatim when it participated in the match,
otherwise the `request` capture verbatim, otherwise the empty string. -/
def requestPathOf (c : Captures) : String :=
  match c ("request_uri") with
  | some u => u
  | none => (c ("request")).getD ("")

/-- A typed value bound to an insert placeholder. -/
inductive SqlValue
  | nat (n : Nat)
  | str (s : String)

/-- One row of (placeholder name, value) pairs. -/
def Record : Type := List (String × SqlValue)

/-- The body of the per-field loop of parse_input (main.rs lines
246-269), for one requested field over one line's captures. -/
def extractField (c : Captures) (field : String) : String × SqlValue :=
  if field = STATUS_TYPE then
    ((":") ++ field, SqlValue.nat (statusTypeOf c))
  else if field = BYTES_SENT then
    ((":") ++ field, SqlValue.nat (parseU32 ((c ("body_bytes_sent")).getD (""))))
  else if field = REQUEST_PATH then
    ((":") ++ field, SqlValue.str (requestPathOf c))
  else
    ((":") ++ field, SqlValue.str ((c field).getD ("")))

/-- The record built from one matched line (main.rs lines 243-271). -/
def extractRecord (fields : List String) (c : Captures) : Record :=
  fields.map (extractField c)

/-- The extraction phase of parse_input (main.rs lines 239-274): a
filter-map over the batch in which a line whose match attempt returns
none is dropped and a matched line contributes its record.
`cap` is the compiled matcher's capture function, `pattern.captures`. -/
def parseInputRecords (fields : List String) (cap : String → Option Captures)
    (lines : List String) : List Record :=
  lines.filterMap (fun line => (cap line).map (extractRecord fields))

/-- Any parse of an unsigned integer bounded by `bound` is at most
`bound`. -/
theorem parseUInt_le (bound : Nat) (s : List Char) : parseUInt bound s ≤ bound := by
  unfold parseUInt
  split
  · split
    · omega
    · omega
  · omega

/-- C3 counterexample: a status capture of `600` (a syntactically valid
status field) yields bucket 6, outside the claimed set {0,1,2,3,4,5}. -/
theorem status_class_out_of_claimed_range :
    statusTypeOf (fun n => if n = STATUS_FIELD then some ("600") else none) = 6 ∧
    statusTypeOf (fun n => if n = STATUS_FIELD then some ("600") else none) ∉
      [0, 1, 2, 3, 4, 5] := by
  exact ⟨by decide, by decide⟩

/-- C3 (amended): the status-class field equals the status capture
(empty when absent) parsed as an unsigned 16-bit integer — unparsable or
out-of-range input yielding 0 — integer-divided by 100, and the bucket
always lies in {0, ..., 655}. -/
theorem status_class_u16_div100_le_655 (c : Captures) :
    statusTypeOf c = parseU16 ((c STATUS_FIELD).getD ("")) / 100 ∧
    statusTypeOf c ≤ 655 := by
  refine ⟨rfl, ?_⟩
  have h : parseU16 ((c STATUS_FIELD).getD ("")) ≤ 65535 :=
    parseUInt_le 65535 ((c STATUS_FIELD).getD ("")).toList
  calc statusTypeOf c = parseU16 ((c STATUS_FIELD).getD ("")) / 100 := rfl
    _ ≤ 65535 / 100 := Nat.div_le_div_right h
    _ = 655 := by norm_num

/-- C4: the request-path field is the `request_uri` capture verbatim
when that capture participated in the match; otherwise the `request`
capture verbatim; otherwise the empty string — no further parsing is
applied to the chosen value. -/
theorem request_path_verbatim (c : Captures) :
    (∀ u, c ("request_uri") = some u → requestPathOf c = u) ∧
    (c ("request_uri") = none →
      ∀ r, c ("request") = some r → requestPathOf c = r) ∧
    (c ("request_uri") = none → c ("request") = none →
      requestPathOf c = ("")) := by
  refine ⟨?_, ?_, ?_⟩
  · intro u h
    unfold requestPathOf
    rw [h]
  · intro h r h2
    unfold requestPathOf
    rw [h, h2]
    rfl
  · intro h h2
    unfold requestPathOf
    rw [h, h2]
    rfl

/-- C4 witness: the three branches evaluated at concrete captures. -/
theorem request_path_verbatim_witness :
    requestPathOf (fun n => if n = ("request_uri") then some ("/w") else none)
        = ("/w") ∧
    requestPathOf (fun n => if n = ("request") then some ("GET / HTTP/1.1") else none)
        = ("GET / HTTP/1.1") ∧
    requestPathOf (fun _ => none) = ("") :=
  ⟨(request_path_verbatim _).1 ("/w") rfl,
   (request_path_verbatim _).2.1 rfl ("GET / HTTP/1.1") rfl,
   (request_path_verbatim _).2.2 rfl rfl⟩

/-- C5: an unmatched line contributes nothing and never aborts the
batch: removing it leaves the extracted records unchanged, a matched
line contributes exactly its record, and extraction distributes over
batch concatenation — so the batch always yields exactly the records of
its matching lines. -/
theorem unmatched_lines_silently_skipped (fields : List String)
    (cap : String → Option Captures) (pre post : List String) (l : String)
    (hl : cap l = none) :
    parseInputRecords fields cap (pre ++ l :: post)
        = parseInputRecords fields cap (pre ++ post) ∧
    (∀ l2 c, cap l2 = some c →
      parseInputRecords fields cap (l2 :: []) = extractRecord fields c :: []) ∧
    (∀ xs ys, parseInputRecords fields cap (xs ++ ys)
        = parseInputRecords fields cap xs ++ parseInputRecords fields cap ys) := by
  refine ⟨?_, ?_, ?_⟩
  · simp [parseInputRecords, List.filterMap_append, List.filterMap_cons, hl]
  · intro l2 c hc
    simp [parseInputRecords, List.filterMap_cons, hc]
  · intro xs ys
    simp [parseInputRecords, List.filterMap_append]

/-- A concrete matcher behavior for witnesses: the empty line does not
match; any other line matches with no participating groups. -/
def capNoneIfEmpty : String → Option Captures :=
  fun s => if s.isEmpty then none else some (fun _ => none)

/-- C5 witness: a concrete batch in which the empty line does not match
and is dropped without error. -/
theorem unmatched_lines_silently_skipped_witness :
    capNoneIfEmpty ("") = none ∧
    parseInputRecords (STATUS_TYPE :: []) capNoneIfEmpty
        ((("a") :: []) ++ ("") :: [])
      = parseInputRecords (STATUS_TYPE :: []) capNoneIfEmpty
        ((("a") :: []) ++ []) :=
  ⟨rfl,
   (unmatched_lines_silently_skipped (STATUS_TYPE :: []) capNoneIfEmpty
     (("a") :: []) [] ("") rfl).1⟩

/-! ## Run configuration gate (src/main.rs, run, lines 202-235) -/

/-- The sentinel source name STDIN (main.rs line 25). -/
def STDIN : String := "STDIN"

/-- The options consulted by `run`'s control flow. -/
structure OptionsM where
  access_log : Option String
  follow : Bool

/-- Errors of `run`'s configuration checks (main.rs lines 209 and 218). -/
inductive RunErr
  | stdinIsTTY
  | cannotTailStdin
deriving DecidableEq

/-- The observable activities `run` can start, in source order. -/
inductive RunAction
  | tailLoop
  | readInput
  | compileFormat
  | buildProcessor
  | parseBatch
  | reportOnce
deriving DecidableEq

/-- Source resolution of main.rs lines 203-212: an explicitly given log,
or STDIN when standard input is redirected, or a TTY error. -/
def resolveAccessLog (opts : OptionsM) (stdinRedirected : Bool) : Except RunErr String :=
  match opts.access_log with
  | some l => Except.ok l
  | none =>
      if stdinRedirected then Except.ok STDIN else Except.error RunErr.stdinIsTTY

/-- Control flow of `run` (main.rs lines 202-235) as the list of
activities it starts: the follow-on-STDIN check (lines 216-219) comes
before the tail loop, input reading, format compilation, processor
construction, batch parsing and reporting; an error starts none of them. -/
def runActions (opts : OptionsM) (stdinRedirected : Bool) : Except RunErr (List RunAction) :=
  match resolveAccessLog opts stdinRedirected with
  | Except.error e => Except.error e
  | Except.ok access_log =>
      if opts.follow = true ∧ access_log = STDIN then
        Except.error RunErr.cannotTailStdin
      else if opts.follow = true then
        Except.ok (RunAction.tailLoop :: [])
      else
        Except.ok (RunAction.readInput :: RunAction.compileFormat ::
          RunAction.buildProcessor :: RunAction.parseBatch :: RunAction.reportOnce :: [])

/-- C6: when the resolved input source is standard input and continuous
(follow) mode is requested, `run` fails with the configuration error
before starting any tailing, parsing, or store activity. -/
theorem follow_stdin_config_error (opts : OptionsM) (stdinRedirected : Bool)
    (hf : opts.follow = true)
    (hs : resolveAccessLog opts stdinRedirected = Except.ok STDIN) :
    runActions opts stdinRedirected = Except.error RunErr.cannotTailStdin := by
  unfold runActions
  rw [hs]
  show (if opts.follow = true ∧ STDIN = STDIN then
          Except.error RunErr.cannotTailStdin
        else if opts.follow = true then
          Except.ok (RunAction.tailLoop :: [])
        else
          Except.ok (RunAction.readInput :: RunAction.compileFormat ::
            RunAction.buildProcessor :: RunAction.parseBatch :: RunAction.reportOnce :: []))
      = Except.error RunErr.cannotTailStdin
  rw [if_pos ⟨hf, rfl⟩]

/-- C6 witness: a concrete configuration naming STDIN with follow set. -/
theorem follow_stdin_config_error_witness :
    (OptionsM.mk (some STDIN) true).follow = true ∧
    runActions (OptionsM.mk (some STDIN) true) false
        = Except.error RunErr.cannotTailStdin :=
  ⟨rfl, follow_stdin_config_error (OptionsM.mk (some STDIN) true) false rfl rfl⟩

/-! ## Tailer (src/main.rs, tail, lines 115-192) -/

/-- The tailer's mutable state: the tracked byte offset `len` into the
followed file and the lines already forwarded on the channel. -/
structure TailState where
  offset : Nat
  forwarded : List (List Char)

/-- One `read_line` result starting at the current offset: everything up
to and including the first newline, or — at end of file — the remaining
unterminated bytes. -/
def rawLine (rest : List Char) : List Char :=
  if (rest.takeWhile (fun c => c ≠ '\n')).length < rest.length then
    rest.takeWhile (fun c => c ≠ '\n') ++ '\n' :: []
  else rest

/-- One iteration of the tail loop's read arm (main.rs lines 150-163):
when bytes are available past the offset, consume one raw line, advance
the offset by the bytes consumed, pop the line's last character and
forward the rest; otherwise sleep (no state change). -/
def pollStep (file : List Char) (st : TailState) : TailState :=
  if (file.drop st.offset).isEmpty then st
  else
    TailState.mk (st.offset + (rawLine (file.drop st.offset)).length)
      (st.forwarded ++ (rawLine (file.drop st.offset)).dropLast :: [])

/-- Environment events interleaved with the tailer: the file grows by an
append, or the tailer polls once. -/
inductive TailEvent
  | append (s : List Char)
  | poll

/-- One step of the combined file-and-tailer system. -/
def tailStep : List Char × TailState → TailEvent → List Char × TailState
  | (file, st), TailEvent.append s => (file ++ s, st)
  | (file, st), TailEvent.poll => (file, pollStep file st)

/-- A whole tail run (main.rs lines 126-167): attach to a file holding
`f0` by seeking to its current end — the initial offset is the length
captured from the file metadata before the loop starts — then process
the events. -/
def runTail (f0 : List Char) (evs : List TailEvent) : List Char × TailState :=
  evs.foldl tailStep (f0, TailState.mk f0.length [])

/-- Dropping past an appended prefix reaches only the suffix. -/
theorem drop_append_len (f s : List Char) (k : Nat) :
    (f ++ s).drop (f.length + k) = s.drop k := by
  induction f with
  | nil => simp
  | cons a f ih =>
      have h1 : (a :: f ++ s) = a :: (f ++ s) := rfl
      have h2 : (a :: f).length + k = (f.length + k) + 1 := by
        simp only [List.length_cons]
        omega
      rw [h1, h2, List.drop_succ_cons, ih]

/-- A poll against a file with a fixed prefix behaves like a poll against
the suffix alone, with the offset shifted by the prefix length. -/
theorem pollStep_shift (f s : List Char) (k : Nat) (fw : List (List Char)) :
    pollStep (f ++ s) (TailState.mk (f.length + k) fw) =
      TailState.mk (f.length + (pollStep s (TailState.mk k fw)).offset)
        ((pollStep s (TailState.mk k fw)).forwarded) := by
  unfold pollStep
  simp only [drop_append_len]
  by_cases h : (s.drop k).isEmpty
  · simp [h]
  · simp [h, Nat.add_assoc]

/-- Simulation: running the tail loop over a file with a fixed
pre-existing prefix, starting at an offset past that prefix, forwards
exactly what a run over the suffix alone forwards, and keeps the offset
shifted by the prefix length. -/
theorem runTail_shift (f : List Char) (evs : List TailEvent) :
    ∀ (s : List Char) (k : Nat) (fw : List (List Char)),
      (evs.foldl tailStep (f ++ s, TailState.mk (f.length + k) fw)).1
          = f ++ (evs.foldl tailStep (s, TailState.mk k fw)).1 ∧
      (evs.foldl tailStep (f ++ s, TailState.mk (f.length + k) fw)).2.offset
          = f.length + (evs.foldl tailStep (s, TailState.mk k fw)).2.offset ∧
      (evs.foldl tailStep (f ++ s, TailState.mk (f.length + k) fw)).2.forwarded
          = (evs.foldl tailStep (s, TailState.mk k fw)).2.forwarded := by
  induction evs with
  | nil => intro s k fw; exact ⟨rfl, rfl, rfl⟩
  | cons e evs ih =>
      intro s k fw
      cases e with
      | append t =>
          simp only [List.foldl_cons, tailStep]
          rw [List.append_assoc]
          exact ih (s ++ t) k fw
      | poll =>
          simp only [List.foldl_cons, tailStep, pollStep_shift]
          exact ih s (pollStep s (TailState.mk k fw)).offset
            (pollStep s (TailState.mk k fw)).forwarded

/-- C7: the tailer seeks to end-of-file before polling — its initial
offset is the attach-time length — so the forwarded lines are exactly
those of a run over the appended bytes alone: pre-existing content is
never forwarded, and the offset never falls below the attach-time
length. -/
theorem tailer_never_forwards_preexisting (f0 : List Char) (evs : List TailEvent) :
    (runTail f0 evs).2.forwarded = (runTail [] evs).2.forwarded ∧
    (runTail f0 evs).2.offset = f0.length + (runTail [] evs).2.offset ∧
    f0.length ≤ (runTail f0 evs).2.offset := by
  have h := runTail_shift f0 evs [] 0 []
  rw [List.append_nil] at h
  simp only [Nat.add_zero] at h
  unfold runTail
  refine ⟨h.2.2, h.2.1, ?_⟩
  rw [h.2.1]
  exact Nat.le_add_right _ _

/-- C8: at the failing input — the bytes `abc` appended after attach
with no terminating newline, followed by one poll — the tailer advances
the offset by the three bytes consumed but forwards `ab`: the popped
character is the data byte `c`, not a line terminator, since the
consumed bytes contain none. -/
theorem tailer_pops_data_byte_on_unterminated_line :
    (runTail [] (TailEvent.append ('a' :: 'b' :: 'c' :: []) :: TailEvent.poll :: [])).2.forwarded
        = ('a' :: 'b' :: []) :: [] ∧
    (runTail [] (TailEvent.append ('a' :: 'b' :: 'c' :: []) :: TailEvent.poll :: [])).2.offset = 3 ∧
    ('a' :: 'b' :: 'c' :: []).all (fun c => c ≠ '\n') = true := by
  exact ⟨by decide, by decide, by decide⟩

/-! ## Static pipeline (src/main.rs run, src/processor.rs) -/

/-- The resolved field list and query list of a ProcessorConfig
(processor.rs, `generate_processor`). -/
structure StaticConfig where
  fields : List String
  queries : List String

/-- One run of the static pipeline (main.rs lines 226-234): extract the
records of the matching lines, open a fresh in-memory store holding
exactly those records (`Connection::open_in_memory`, processor.rs line
28), and evaluate each configured query against it in order. The query
engine is the external collaborator, passed in as a deterministic
evaluation function; `world` is the collection of in-memory stores left
over from earlier runs, to which a run only ever adds its own fresh
store. -/
def runStaticPipeline (evalQuery : String → List Record → List (List SqlValue))
    (cap : String → Option Captures) (cfg : StaticConfig) (lines : List String)
    (world : List (List Record)) :
    List (List (List SqlValue)) × List (List Record) :=
  (cfg.queries.map (fun q => evalQuery q (parseInputRecords cfg.fields cap lines)),
   world ++ parseInputRecords cfg.fields cap lines :: [])

/-- C9: over an identical line sequence and identical configuration, a
second run of the static pipeline — even in the world state left behind
by the first run — produces exactly the same aggregate result rows. -/
theorem static_pipeline_idempotent
    (evalQuery : String → List Record → List (List SqlValue))
    (cap : String → Option Captures) (cfg : StaticConfig) (lines : List String)
    (world : List (List Record)) :
    (runStaticPipeline evalQuery cap cfg lines
        (runStaticPipeline evalQuery cap cfg lines world).2).1
      = (runStaticPipeline evalQuery cap cfg lines world).1 :=
  rfl

/-! ## Report renderer (src/processor.rs, report, lines 84-134) -/

/-- One mapped query row (processor.rs lines 89-103): the row's column
names and its values. The value payload is left as a type parameter; the
claims below concern the emitted line structure, not cell formatting. -/
structure QueryResultM (v : Type) where
  columns : List String
  row : List v

/-- One emitted output line: the tab-joined header of column names
(processor.rs line 112) or one row of values (lines 116-125). -/
inductive OutLine (v : Type)
  | header (cols : List String)
  | row (vals : List v)

/-- The body of the row loop (processor.rs lines 108-126): the
accumulator carries the lines written so far and the `wrote_headers`
flag; each row first writes the header if none was written yet, then its
values. -/
def renderStep {v : Type} (acc : List (OutLine v) × Bool) (r : QueryResultM v) :
    List (OutLine v) × Bool :=
  ((if acc.2 then acc.1 else acc.1 ++ OutLine.header r.columns :: []) ++
     OutLine.row r.row :: [], true)

/-- All lines written for one query's result set. -/
def renderSet {v : Type} (rows : List (QueryResultM v)) : List (OutLine v) :=
  (rows.foldl renderStep ([], false)).1

/-- All lines written by `report` (processor.rs lines 85-128): one
result set per query, in query declaration order. -/
def reportLines {v : Type} (resultSets : List (List (QueryResultM v))) :
    List (OutLine v) :=
  (resultSets.map renderSet).flatten

/-- The header lines among the emitted lines, in order. -/
def headersOf {v : Type} : List (OutLine v) → List (List String)
  | [] => []
  | OutLine.header cols :: rest => cols :: headersOf rest
  | OutLine.row _ :: rest => headersOf rest

/-- Once the header flag is set, the row loop only appends value rows. -/
theorem foldl_renderStep_true {v : Type} (rows : List (QueryResultM v)) :
    ∀ acc : List (OutLine v),
      (rows.foldl renderStep (acc, true)).1
        = acc ++ rows.map (fun r => OutLine.row r.row) := by
  induction rows with
  | nil => intro acc; simp
  | cons r rest ih =>
      intro acc
      simp only [List.foldl_cons, renderStep, List.map_cons]
      rw [ih]
      simp

/-- The lines of one result set: nothing for an empty set; otherwise the
first row's header, then every row. -/
theorem renderSet_cons {v : Type} (r : QueryResultM v) (rest : List (QueryResultM v)) :
    renderSet (r :: rest)
      = OutLine.header r.columns :: OutLine.row r.row ::
          rest.map (fun x => OutLine.row x.row) := by
  unfold renderSet
  simp only [List.foldl_cons, renderStep]
  rw [foldl_renderStep_true]
  simp

/-- headersOf distributes over concatenation. -/
theorem headersOf_append {v : Type} (a b : List (OutLine v)) :
    headersOf (a ++ b) = headersOf a ++ headersOf b := by
  induction a with
  | nil => rfl
  | cons x rest ih =>
      cases x with
      | header cols => simp [headersOf, ih]
      | row vals => simp [headersOf, ih]

/-- Value rows contribute no headers. -/
theorem headersOf_row_map {v : Type} (rows : List (QueryResultM v)) :
    headersOf (rows.map (fun x => OutLine.row x.row)) = [] := by
  induction rows with
  | nil => rfl
  | cons r rest ih => simp [headersOf, ih]

/-- The headers of one rendered result set: the first row's column
names, or nothing when the set is empty. -/
theorem headersOf_renderSet {v : Type} (rows : List (QueryResultM v)) :
    headersOf (renderSet rows)
      = (rows.head?.map (fun r => r.columns)).toList := by
  cases rows with
  | nil => rfl
  | cons r rest =>
      rw [renderSet_cons]
      simp [headersOf, headersOf_row_map]

/-- C10 counterexample: a single result set with zero rows emits no
header line at all, although the claim demands exactly one header per
result set including empty ones. -/
theorem empty_result_set_emits_no_header :
    headersOf (reportLines (([] : List (QueryResultM Unit)) :: [])) = [] ∧
    ((([] : List (QueryResultM Unit)) :: []).length = 1) :=
  ⟨rfl, rfl⟩

/-- C10 (amended): the renderer emits exactly one header line per
result set that contains at least one row — carrying that set's (first
row's) column names — with result sets rendered in query declaration
order; a zero-row result set emits no header. -/
theorem one_header_per_nonempty_result_set {v : Type}
    (sets : List (List (QueryResultM v))) :
    headersOf (reportLines sets)
      = sets.filterMap (fun rows => rows.head?.map (fun r => r.columns)) := by
  induction sets with
  | nil => rfl
  | cons s rest ih =>
      unfold reportLines
      simp only [List.map_cons, List.flatten_cons]
      rw [headersOf_append, headersOf_renderSet]
      unfold reportLines at ih
      rw [ih, List.filterMap_cons]
      cases s with
      | nil => rfl
      | cons r rs => rfl
